import Mathlib

/-!
Verification of the subscription manager of the edgex-sse service
(`submgr/submgr.go`) and of its HTTP management layer (`web/submgmt.go`).

Go strings are modelled as lists of characters (`GoStr`); `time.Time` values
are modelled as natural numbers, with `0` standing for the zero time
(`time.Time{}.IsZero()`); Go's `map[string]*SubscriptionInfo` is modelled as
an association list with overwrite-on-insert semantics; pointer identity of
subscription records and of their channels is modelled by a `uid` field
allocated from a counter.  Fallible operations return the new state paired
with an `Except String Unit` mirroring Go's `error` return.
-/

namespace EdgexSSE

/-- Go strings, modelled as lists of characters. -/
abbrev GoStr := List Char

/-- `endWithSlash` from submgr.go: adds a slash to the end of the string,
unless it is empty or already ends with a slash.  (The `nil` pointer check
of the Go source cannot arise here: the argument is passed by value.) -/
def endWithSlash (s : GoStr) : GoStr :=
  if s ≠ [] ∧ s.getLast? ≠ some '/' then s ++ ['/'] else s

/-- `stringSliceRemove` from submgr.go: removes every occurrence of the given
string from a slice of strings. -/
def stringSliceRemove (l : List GoStr) (toRemove : GoStr) : List GoStr :=
  l.filter (fun s => s ≠ toRemove)

/-- One insertion step of sorting by string length: the new element is placed
after every element of smaller or equal length. -/
def insertLen (x : GoStr) : List GoStr → List GoStr
  | [] => [x]
  | y :: ys => if x.length < y.length then x :: y :: ys else y :: insertLen x ys

/-- `sort.Sort(byLength(...))` from submgr.go, modelled as a stable insertion
sort by ascending string length.  The Go source only ever sorts a list
obtained by appending one element to an already sorted list, for which Go's
`sort.Sort` produces exactly this stable result. -/
def sortLen (l : List GoStr) : List GoStr :=
  l.foldl (fun acc x => insertLen x acc) []

/-- Struct `SubscriptionInfo` from submgr.go.  The channel itself carries no
state we reason about; `uid` models the pointer identity of the record and
of its channel. -/
structure SubscriptionInfo where
  includes : List GoStr
  excludes : List GoStr
  SubId : GoStr
  active : Bool
  process : Bool
  /-- `expiration time.Time`; `0` models the zero `time.Time`. -/
  expiration : Nat
  IsClosedChan : Bool
  uid : Nat
deriving DecidableEq, Repr

/-- Struct `SubscriptionManager` from submgr.go.  The subscription map is an
association list with Go-map semantics; `nextUid` models the allocator of
record identities. -/
structure SubscriptionManager where
  subscriptions : List (GoStr × SubscriptionInfo)
  subscriptionList : List SubscriptionInfo
  numSubscriptions : Nat
  subscriptionLimit : Nat
  includeExcludeLimit : Nat
  maxIdleSubscriptionAge : Nat
  nextUid : Nat
deriving DecidableEq, Repr

instance : Nonempty SubscriptionInfo :=
  ⟨{ includes := [], excludes := [], SubId := [], active := false,
     process := false, expiration := 0, IsClosedChan := false, uid := 0 }⟩

instance : Nonempty SubscriptionManager :=
  ⟨{ subscriptions := [], subscriptionList := [], numSubscriptions := 0,
     subscriptionLimit := 0, includeExcludeLimit := 0,
     maxIdleSubscriptionAge := 0, nextUid := 0 }⟩

/-- Lookup in a Go map modelled as an association list. -/
def mapLookup : List (GoStr × SubscriptionInfo) → GoStr → Option SubscriptionInfo
  | [], _ => none
  | (k', v) :: rest, k => if k' = k then some v else mapLookup rest k

/-- `m[k] = v` on a Go map: overwrite the existing entry or append a new one. -/
def mapInsert : List (GoStr × SubscriptionInfo) → GoStr → SubscriptionInfo →
    List (GoStr × SubscriptionInfo)
  | [], k, v => [(k, v)]
  | (k', v') :: rest, k, v =>
    if k' = k then (k, v) :: rest else (k', v') :: mapInsert rest k v

/-- `delete(m, k)` on a Go map. -/
def mapDelete (m : List (GoStr × SubscriptionInfo)) (k : GoStr) :
    List (GoStr × SubscriptionInfo) :=
  m.filter (fun e => e.1 ≠ k)

/-- `Include` from submgr.go, for a non-nil subscription record.  The manager
only contributes its `includeExcludeLimit`, passed explicitly; the mutated
record is returned together with the `error` result.  The Go source checks
`i == topicPrefix` inside its loop over the include list and returns early;
as the loop mutates nothing before that return, this equals the up-front
membership test used here. -/
def Include (includeExcludeLimit : Nat) (sub : SubscriptionInfo)
    ( topicPrefix : GoStr) : SubscriptionInfo × Except String Unit :=
  let tp := endWithSlash topicPrefix
  if tp ∈ sub.excludes then
    ({ sub with excludes := stringSliceRemove sub.excludes tp }, Except.ok ())
  else if tp ∈ sub.includes then
    (sub, Except.ok ())
  else
    let includesToRemove := sub.includes.filter (fun i => tp.isPrefixOf i)
    let newIncludes :=
      includesToRemove.foldl (fun acc i => stringSliceRemove acc i) sub.includes
    if includeExcludeLimit ≤ newIncludes.length then
      ({ sub with includes := newIncludes }, Except.error "include limit reached")
    else
      ({ sub with includes := sortLen (newIncludes ++ [tp]) }, Except.ok ())

/-- `Exclude` from submgr.go, the mirror image of `Include`. -/
def Exclude (includeExcludeLimit : Nat) (sub : SubscriptionInfo)
    ( topicPrefix : GoStr) : SubscriptionInfo × Except String Unit :=
  let tp := endWithSlash topicPrefix
  if tp ∈ sub.includes then
    ({ sub with includes := stringSliceRemove sub.includes tp }, Except.ok ())
  else if tp ∈ sub.excludes then
    (sub, Except.ok ())
  else
    let excludesToRemove := sub.excludes.filter (fun e => tp.isPrefixOf e)
    let newExcludes :=
      excludesToRemove.foldl (fun acc e => stringSliceRemove acc e) sub.excludes
    if includeExcludeLimit ≤ newExcludes.length then
      ({ sub with excludes := newExcludes }, Except.error "exclude limit reached")
    else
      ({ sub with excludes := sortLen (newExcludes ++ [tp]) }, Except.ok ())

/-- `SetActive` from submgr.go (non-nil record): sets the flag, then clears
the expiration when the flag is now true and arms it to `now + maxAge`
otherwise.  `now` models `time.Now()`. -/
def SetActive (maxIdleSubscriptionAge now : Nat) (sub : SubscriptionInfo)
    (isActive : Bool) : SubscriptionInfo :=
  let sub' := { sub with active := isActive }
  if sub'.active then { sub' with expiration := 0 }
  else { sub' with expiration := now + maxIdleSubscriptionAge }

/-- `SetProcess` from submgr.go (non-nil record). -/
def SetProcess (maxIdleSubscriptionAge now : Nat) (sub : SubscriptionInfo)
    (isProcess : Bool) : SubscriptionInfo :=
  let sub' := { sub with process := isProcess }
  if sub'.process then { sub' with expiration := 0 }
  else { sub' with expiration := now + maxIdleSubscriptionAge }

/-- The exclude loop of `SubscribedChannels`: stops as soon as an entry is
longer than the topic, disqualifies on the first entry that is a prefix of
the topic. -/
def excludeScan (topic : GoStr) : List GoStr → Bool
  | [] => true
  | e :: rest =>
    if topic.length < e.length then true
    else if e.isPrefixOf topic then false
    else excludeScan topic rest

/-- The include loop of `SubscribedChannels`: stops as soon as an entry is
longer than the topic; on the first entry that is a prefix of the topic the
exclude loop decides the outcome. -/
def includeScan (topic : GoStr) (excl : List GoStr) : List GoStr → Bool
  | [] => false
  | i :: rest =>
    if topic.length < i.length then false
    else if i.isPrefixOf topic then excludeScan topic excl
    else includeScan topic excl rest

/-- The per-subscription loop of `SubscribedChannels`: inactive subscriptions
are skipped, and the channel (modelled by `uid`) of each matching active
subscription is collected in list order. -/
def subLoop (topic : GoStr) : List SubscriptionInfo → List Nat
  | [] => []
  | sub :: rest =>
    if sub.active && includeScan topic sub.excludes sub.includes then
      sub.uid :: subLoop topic rest
    else
      subLoop topic rest

/-- `SubscribedChannels` from submgr.go: the fast path returns nothing when
the cached count is zero; otherwise the slash-normalized topic is matched
against every subscription in the list. -/
def SubscribedChannels (s : SubscriptionManager) (topic : GoStr) : List Nat :=
  if s.numSubscriptions = 0 then []
  else subLoop (endWithSlash topic) s.subscriptionList

/-- `Init` from submgr.go (the background age-out task and the channel buffer
size carry no state reasoned about here). -/
def Init (sublimit incexclimit maxage : Nat) : SubscriptionManager :=
  { subscriptions := []
    subscriptionList := []
    numSubscriptions := 0
    subscriptionLimit := sublimit
    includeExcludeLimit := incexclimit
    maxIdleSubscriptionAge := maxage
    nextUid := 0 }

/-- `NewSubscription` from submgr.go.  `token.GenerateToken()` reads from a
cryptographic RNG, so its outcome is an input here (`tok`); `now` models
`time.Now()`. -/
def NewSubscription (s : SubscriptionManager) (tok : Except String GoStr)
    (now : Nat) : SubscriptionManager × Except String GoStr :=
  if s.subscriptionLimit ≤ s.numSubscriptions then
    (s, Except.error "subscription limit reached")
  else
    match tok with
    | Except.error e => (s, Except.error e)
    | Except.ok newid =>
      let newsub : SubscriptionInfo :=
        { SubId := newid
          includes := []
          excludes := []
          active := false
          process := false
          expiration := now + s.maxIdleSubscriptionAge
          IsClosedChan := false
          uid := s.nextUid }
      ({ s with
          subscriptions := mapInsert s.subscriptions newid newsub
          subscriptionList := s.subscriptionList ++ [newsub]
          numSubscriptions := s.numSubscriptions + 1
          nextUid := s.nextUid + 1 },
       Except.ok newid)

/-- `DeleteSubscription` from submgr.go: no-op on an unknown id; otherwise the
record is tombstoned (flags cleared, id blanked, channel closed), removed
from the map, removed from the list by pointer identity, and the cached
count is recomputed from the map. -/
def DeleteSubscription (s : SubscriptionManager) (subid : GoStr) :
    SubscriptionManager :=
  match mapLookup s.subscriptions subid with
  | none => s
  | some sub =>
    { s with
        subscriptions := mapDelete s.subscriptions subid
        subscriptionList := s.subscriptionList.filter (fun x => x.uid ≠ sub.uid)
        numSubscriptions := (mapDelete s.subscriptions subid).length }

/-- `Close` from submgr.go: every subscription is dropped and the count reset.
(The per-record tombstoning of the Go source touches only records that
become unreachable from the manager.) -/
def Close (s : SubscriptionManager) : SubscriptionManager :=
  { s with
      subscriptionList := []
      subscriptions := []
      numSubscriptions := 0 }

/-! ### Basic facts about the list utilities -/

/-- "Sorted by ascending string length", the order maintained by `byLength`. -/
def sortedLen (l : List GoStr) : Prop :=
  l.Pairwise (fun a b => a.length ≤ b.length)

lemma mem_insertLen {x y : GoStr} {l : List GoStr} :
    y ∈ insertLen x l ↔ y = x ∨ y ∈ l := by
  induction l with
  | nil => simp [insertLen]
  | cons z zs ih =>
    simp only [insertLen]
    split
    · simp
    · simp only [List.mem_cons, ih]
      tauto

lemma sortedLen_insertLen {x : GoStr} {l : List GoStr} (h : sortedLen l) :
    sortedLen (insertLen x l) := by
  induction l with
  | nil => simp [insertLen, sortedLen]
  | cons z zs ih =>
    rcases List.pairwise_cons.mp h with ⟨hz, hzs⟩
    simp only [insertLen]
    split
    · rename_i hlt
      refine List.pairwise_cons.mpr ⟨?_, h⟩
      intro b hb
      rcases List.mem_cons.mp hb with rfl | hb
      · exact Nat.le_of_lt hlt
      · exact Nat.le_trans (Nat.le_of_lt hlt) (hz b hb)
    · rename_i hnlt
      refine List.pairwise_cons.mpr ⟨?_, ih hzs⟩
      intro b hb
      rcases mem_insertLen.mp hb with rfl | hb
      · exact Nat.le_of_not_lt hnlt
      · exact hz b hb

lemma sortedLen_foldl_insertLen (l : List GoStr) :
    ∀ acc : List GoStr, sortedLen acc →
      sortedLen (l.foldl (fun acc x => insertLen x acc) acc) := by
  induction l with
  | nil => intro acc h; simpa using h
  | cons x xs ih =>
    intro acc h
    simpa using ih (insertLen x acc) (sortedLen_insertLen h)

lemma sortedLen_sortLen (l : List GoStr) : sortedLen (sortLen l) :=
  sortedLen_foldl_insertLen l [] (by simp [sortedLen])

lemma mem_foldl_insertLen {y : GoStr} (l : List GoStr) :
    ∀ acc : List GoStr,
      (y ∈ l.foldl (fun acc x => insertLen x acc) acc ↔ y ∈ acc ∨ y ∈ l) := by
  induction l with
  | nil => intro acc; simp
  | cons x xs ih =>
    intro acc
    simp only [List.foldl_cons, ih (insertLen x acc), mem_insertLen,
      List.mem_cons]
    tauto

lemma mem_sortLen {y : GoStr} {l : List GoStr} : y ∈ sortLen l ↔ y ∈ l := by
  simpa [sortLen] using mem_foldl_insertLen l []

lemma foldl_stringSliceRemove (R : List GoStr) :
    ∀ l : List GoStr,
      R.foldl (fun acc i => stringSliceRemove acc i) l
        = l.filter (fun s => decide (s ∉ R)) := by
  induction R with
  | nil => intro l; simp
  | cons r rs ih =>
    intro l
    simp only [List.foldl_cons]
    rw [ih (stringSliceRemove l r)]
    unfold stringSliceRemove
    rw [List.filter_filter]
    apply List.filter_congr
    intro a _
    by_cases h1 : a = r <;> by_cases h2 : a ∈ rs <;> simp [h1, h2]

/-- The removal phase of `Include`/`Exclude`: removing every collected covered
entry from the list is the same as filtering the covered entries out. -/
lemma removeCovered_eq_filter (q : GoStr → Bool) (l : List GoStr) :
    (l.filter q).foldl (fun acc i => stringSliceRemove acc i) l
      = l.filter (fun s => !(q s)) := by
  rw [foldl_stringSliceRemove]
  apply List.filter_congr
  intro a ha
  by_cases h : q a
  · simp [h, List.mem_filter, ha]
  · simp [h, List.mem_filter]

/-! ### Slash normalization -/

/-- The shape every stored prefix has: empty, or ending in a slash. -/
def slashNormalized (s : GoStr) : Prop :=
  s = [] ∨ s.getLast? = some '/'

instance (s : GoStr) : Decidable (slashNormalized s) := by
  unfold slashNormalized; infer_instance

lemma slashNormalized_endWithSlash (s : GoStr) :
    slashNormalized (endWithSlash s) := by
  unfold endWithSlash
  split
  · right
    simp
  · rename_i h
    push_neg at h
    by_cases hs : s = []
    · exact Or.inl hs
    · exact Or.inr (h hs)

lemma endWithSlash_of_normalized {s : GoStr} (h : slashNormalized s) :
    endWithSlash s = s := by
  unfold endWithSlash
  rcases h with h | h <;> simp [h]

/-! ### Branch characterizations of `Include` and `Exclude` -/

lemma Include_mem_excludes {L : Nat} {sub : SubscriptionInfo} {p : GoStr}
    (h : endWithSlash p ∈ sub.excludes) :
    Include L sub p
      = ({ sub with excludes := stringSliceRemove sub.excludes (endWithSlash p) },
         Except.ok ()) := by
  simp [Include, h]

lemma Include_mem_includes {L : Nat} {sub : SubscriptionInfo} {p : GoStr}
    (h1 : endWithSlash p ∉ sub.excludes) (h2 : endWithSlash p ∈ sub.includes) :
    Include L sub p = (sub, Except.ok ()) := by
  simp [Include, h1, h2]

lemma Include_fresh {L : Nat} {sub : SubscriptionInfo} {p : GoStr}
    (h1 : endWithSlash p ∉ sub.excludes) (h2 : endWithSlash p ∉ sub.includes) :
    Include L sub p
      = (if L ≤ (sub.includes.filter (fun i => !((endWithSlash p).isPrefixOf i))).length then
           ({ sub with includes := sub.includes.filter (fun i => !((endWithSlash p).isPrefixOf i)) },
            Except.error "include limit reached")
         else
           ({ sub with includes := sortLen ((sub.includes.filter (fun i => !((endWithSlash p).isPrefixOf i))) ++ [endWithSlash p]) },
            Except.ok ())) := by
  simp only [Include, h1, h2, if_false, ite_false]
  rw [removeCovered_eq_filter (fun i => (endWithSlash p).isPrefixOf i) sub.includes]

lemma Exclude_mem_includes {L : Nat} {sub : SubscriptionInfo} {p : GoStr}
    (h : endWithSlash p ∈ sub.includes) :
    Exclude L sub p
      = ({ sub with includes := stringSliceRemove sub.includes (endWithSlash p) },
         Except.ok ()) := by
  simp [Exclude, h]

lemma Exclude_mem_excludes {L : Nat} {sub : SubscriptionInfo} {p : GoStr}
    (h1 : endWithSlash p ∉ sub.includes) (h2 : endWithSlash p ∈ sub.excludes) :
    Exclude L sub p = (sub, Except.ok ()) := by
  simp [Exclude, h1, h2]

lemma Exclude_fresh {L : Nat} {sub : SubscriptionInfo} {p : GoStr}
    (h1 : endWithSlash p ∉ sub.includes) (h2 : endWithSlash p ∉ sub.excludes) :
    Exclude L sub p
      = (if L ≤ (sub.excludes.filter (fun e => !((endWithSlash p).isPrefixOf e))).length then
           ({ sub with excludes := sub.excludes.filter (fun e => !((endWithSlash p).isPrefixOf e)) },
            Except.error "exclude limit reached")
         else
           ({ sub with excludes := sortLen ((sub.excludes.filter (fun e => !((endWithSlash p).isPrefixOf e))) ++ [endWithSlash p]) },
            Except.ok ())) := by
  simp only [Exclude, h1, h2, if_false, ite_false]
  rw [removeCovered_eq_filter (fun e => (endWithSlash p).isPrefixOf e) sub.excludes]

/-! ### The matching engine -/

lemma not_prefix_of_length_lt {e t : GoStr} (h : t.length < e.length) :
    ¬ e <+: t := fun hp => absurd hp.length_le (Nat.not_le_of_lt h)

lemma excludeScan_iff {t : GoStr} {l : List GoStr} (hs : sortedLen l) :
    excludeScan t l = true ↔ ∀ e ∈ l, ¬ e <+: t := by
  induction l with
  | nil => simp [excludeScan]
  | cons e rest ih =>
    rcases List.pairwise_cons.mp hs with ⟨he, hrest⟩
    simp only [excludeScan]
    split
    · rename_i ht
      simp only [true_iff]
      intro x hx
      rcases List.mem_cons.mp hx with rfl | hx
      · exact not_prefix_of_length_lt ht
      · exact not_prefix_of_length_lt (Nat.lt_of_lt_of_le ht (he x hx))
    · split
      · rename_i hp
        constructor
        · exact fun h => absurd h Bool.false_ne_true
        · intro h
          exact absurd (List.isPrefixOf_iff_prefix.mp hp)
            (h e (List.mem_cons_self e rest))
      · rename_i hnp
        rw [ih hrest]
        constructor
        · intro h x hx
          rcases List.mem_cons.mp hx with rfl | hx
          · exact fun hp => hnp (List.isPrefixOf_iff_prefix.mpr hp)
          · exact h x hx
        · intro h x hx
          exact h x (List.mem_cons_of_mem e hx)

lemma includeScan_iff {t : GoStr} {excl incl : List GoStr}
    (hs : sortedLen incl) :
    includeScan t excl incl = true
      ↔ (∃ i ∈ incl, i <+: t) ∧ excludeScan t excl = true := by
  induction incl with
  | nil => simp [includeScan]
  | cons i rest ih =>
    rcases List.pairwise_cons.mp hs with ⟨hi, hrest⟩
    simp only [includeScan]
    split
    · rename_i ht
      constructor
      · exact fun h => absurd h Bool.false_ne_true
      · rintro ⟨⟨x, hx, hp⟩, -⟩
        exfalso
        rcases List.mem_cons.mp hx with rfl | hx
        · exact not_prefix_of_length_lt ht hp
        · exact not_prefix_of_length_lt (Nat.lt_of_lt_of_le ht (hi x hx)) hp
    · split
      · rename_i hp
        constructor
        · intro h
          exact ⟨⟨i, List.mem_cons_self i rest, List.isPrefixOf_iff_prefix.mp hp⟩, h⟩
        · exact fun h => h.2
      · rename_i hnp
        rw [ih hrest]
        constructor
        · rintro ⟨⟨x, hx, hxp⟩, hexcl⟩
          exact ⟨⟨x, List.mem_cons_of_mem i hx, hxp⟩, hexcl⟩
        · rintro ⟨⟨x, hx, hxp⟩, hexcl⟩
          rcases List.mem_cons.mp hx with rfl | hx
          · exact absurd (List.isPrefixOf_iff_prefix.mpr hxp) hnp
          · exact ⟨⟨x, hx, hxp⟩, hexcl⟩

lemma mem_subLoop {u : Nat} {t : GoStr} {l : List SubscriptionInfo} :
    u ∈ subLoop t l
      ↔ ∃ sub ∈ l,
          (sub.active && includeScan t sub.excludes sub.includes) = true
          ∧ sub.uid = u := by
  induction l with
  | nil => simp [subLoop]
  | cons sub rest ih =>
    simp only [subLoop]
    split
    · rename_i hcond
      constructor
      · intro hu
        rcases List.mem_cons.mp hu with rfl | hu
        · exact ⟨sub, List.mem_cons_self sub rest, hcond, rfl⟩
        · rcases ih.mp hu with ⟨r, hr, hc, hueq⟩
          exact ⟨r, List.mem_cons_of_mem sub hr, hc, hueq⟩
      · rintro ⟨r, hr, hc, hueq⟩
        rcases List.mem_cons.mp hr with rfl | hr
        · exact hueq ▸ List.mem_cons_self r.uid (subLoop t rest)
        · exact List.mem_cons_of_mem sub.uid (ih.mpr ⟨r, hr, hc, hueq⟩)
    · rename_i hcond
      rw [ih]
      constructor
      · rintro ⟨r, hr, hc, hueq⟩
        exact ⟨r, List.mem_cons_of_mem sub hr, hc, hueq⟩
      · rintro ⟨r, hr, hc, hueq⟩
        rcases List.mem_cons.mp hr with rfl | hr
        · exact absurd hc hcond
        · exact ⟨r, hr, hc, hueq⟩

/-- The specification's matching predicate, written from the spec's words:
"some element of `S.includes` is a prefix of `T/` and no element of
`S.excludes` is a prefix of `T/`", with `T/` the slash-normalized topic. -/
def specMatches (t : GoStr) (sub : SubscriptionInfo) : Prop :=
  (∃ i ∈ sub.includes, i <+: endWithSlash t)
    ∧ ∀ e ∈ sub.excludes, ¬ e <+: endWithSlash t

/-- Claim C1: for every topic `T` and subscription `S` held by the manager
with `active = true`, the send side of `S`'s channel is returned by
`SubscribedChannels T` exactly when some include entry is a prefix of the
slash-normalized topic and no exclude entry is; inactive subscriptions are
never returned.  The hypotheses are the registry invariants: both prefix
lists sorted by ascending length, the cached count consistent with the list,
and distinct records having distinct channels. -/
theorem C1_subscribedChannels_match (s : SubscriptionManager) (T : GoStr)
    (sub : SubscriptionInfo)
    (hmem : sub ∈ s.subscriptionList)
    (hsorted : ∀ r ∈ s.subscriptionList, sortedLen r.includes ∧ sortedLen r.excludes)
    (hcount : s.numSubscriptions = s.subscriptionList.length)
    (huid : (s.subscriptionList.map (fun r => r.uid)).Nodup)
    (hactive : sub.active = true) :
    (sub.uid ∈ SubscribedChannels s T ↔ specMatches T sub)
    ∧ ∀ r ∈ s.subscriptionList, r.active = false →
        r.uid ∉ SubscribedChannels s T := by
  by_cases hzero : s.numSubscriptions = 0
  · rw [hcount] at hzero
    have hnil : s.subscriptionList = [] := List.length_eq_zero.mp hzero
    rw [hnil] at hmem
    exact absurd hmem (List.not_mem_nil sub)
  · have hch : SubscribedChannels s T = subLoop (endWithSlash T) s.subscriptionList := by
      simp [SubscribedChannels, hzero]
    constructor
    · rw [hch, mem_subLoop]
      constructor
      · rintro ⟨r, hr, hc, hu⟩
        have : r = sub := List.inj_on_of_nodup_map huid hr hmem hu
        subst this
        rw [Bool.and_eq_true] at hc
        rcases hc with ⟨-, hscan⟩
        rcases (includeScan_iff (hsorted r hr).1).mp hscan with ⟨hex, hexcl⟩
        exact ⟨hex, (excludeScan_iff (hsorted r hr).2).mp hexcl⟩
      · rintro ⟨hex, hall⟩
        refine ⟨sub, hmem, ?_, rfl⟩
        rw [Bool.and_eq_true]
        refine ⟨hactive, ?_⟩
        rw [includeScan_iff (hsorted sub hmem).1]
        exact ⟨hex, (excludeScan_iff (hsorted sub hmem).2).mpr hall⟩
    · intro r hr hract hin
      rw [hch, mem_subLoop] at hin
      rcases hin with ⟨r', hr', hc, hu⟩
      have : r' = r := List.inj_on_of_nodup_map huid hr' hr hu
      subst this
      rw [Bool.and_eq_true] at hc
      rcases hc with ⟨hact, -⟩
      rw [hract] at hact
      exact Bool.false_ne_true hact

/-! ### Reachable states of a single subscription's prefix lists -/

/-- The states of one subscription record reachable from its creation by
`NewSubscription` (both lists empty) through any sequence of `Include` and
`Exclude` calls, successful or not, under per-list limit `L`. -/
inductive SubReach (L : Nat) : SubscriptionInfo → Prop where
  | init (sub : SubscriptionInfo) (h1 : sub.includes = []) (h2 : sub.excludes = []) :
      SubReach L sub
  | stepInclude (sub : SubscriptionInfo) (p : GoStr) (h : SubReach L sub) :
      SubReach L (Include L sub p).1
  | stepExclude (sub : SubscriptionInfo) (p : GoStr) (h : SubReach L sub) :
      SubReach L (Exclude L sub p).1

/-- The list invariants a subscription record actually maintains: both lists
sorted by ascending length, disjoint, and every element slash-normalized
(empty or ending in a slash). -/
def listsInv (sub : SubscriptionInfo) : Prop :=
  sortedLen sub.includes ∧ sortedLen sub.excludes
    ∧ (∀ x ∈ sub.includes, x ∉ sub.excludes)
    ∧ (∀ x ∈ sub.includes, slashNormalized x)
    ∧ (∀ x ∈ sub.excludes, slashNormalized x)

lemma listsInv_Include {L : Nat} {sub : SubscriptionInfo} (p : GoStr)
    (h : listsInv sub) : listsInv (Include L sub p).1 := by
  rcases h with ⟨hsi, hse, hdisj, hni, hne⟩
  by_cases h1 : endWithSlash p ∈ sub.excludes
  · rw [Include_mem_excludes h1]
    refine ⟨hsi, hse.filter _, ?_, hni, ?_⟩
    · intro x hx hmem
      rcases List.mem_filter.mp hmem with ⟨hmem', -⟩
      exact hdisj x hx hmem'
    · intro x hx
      exact hne x (List.mem_filter.mp hx).1
  · by_cases h2 : endWithSlash p ∈ sub.includes
    · rw [Include_mem_includes h1 h2]
      exact ⟨hsi, hse, hdisj, hni, hne⟩
    · rw [Include_fresh h1 h2]
      split
      · refine ⟨hsi.filter _, hse, ?_, ?_, hne⟩
        · intro x hx
          exact hdisj x (List.mem_filter.mp hx).1
        · intro x hx
          exact hni x (List.mem_filter.mp hx).1
      · refine ⟨sortedLen_sortLen _, hse, ?_, ?_, hne⟩
        · intro x hx
          rcases List.mem_append.mp (mem_sortLen.mp hx) with hx' | hx'
          · exact hdisj x (List.mem_filter.mp hx').1
          · rcases List.mem_singleton.mp hx' with rfl
            exact h1
        · intro x hx
          rcases List.mem_append.mp (mem_sortLen.mp hx) with hx' | hx'
          · exact hni x (List.mem_filter.mp hx').1
          · rcases List.mem_singleton.mp hx' with rfl
            exact slashNormalized_endWithSlash p

lemma listsInv_Exclude {L : Nat} {sub : SubscriptionInfo} (p : GoStr)
    (h : listsInv sub) : listsInv (Exclude L sub p).1 := by
  rcases h with ⟨hsi, hse, hdisj, hni, hne⟩
  by_cases h1 : endWithSlash p ∈ sub.includes
  · rw [Exclude_mem_includes h1]
    refine ⟨hsi.filter _, hse, ?_, ?_, hne⟩
    · intro x hx
      exact hdisj x (List.mem_filter.mp hx).1
    · intro x hx
      exact hni x (List.mem_filter.mp hx).1
  · by_cases h2 : endWithSlash p ∈ sub.excludes
    · rw [Exclude_mem_excludes h1 h2]
      exact ⟨hsi, hse, hdisj, hni, hne⟩
    · rw [Exclude_fresh h1 h2]
      split
      · refine ⟨hsi, hse.filter _, ?_, hni, ?_⟩
        · intro x hx hmem
          exact hdisj x hx (List.mem_filter.mp hmem).1
        · intro x hx
          exact hne x (List.mem_filter.mp hx).1
      · refine ⟨hsi, sortedLen_sortLen _, ?_, hni, ?_⟩
        · intro x hx hmem
          rcases List.mem_append.mp (mem_sortLen.mp hmem) with hx' | hx'
          · exact hdisj x hx (List.mem_filter.mp hx').1
          · rcases List.mem_singleton.mp hx' with heq
            rw [heq] at hx
            exact h1 hx
        · intro x hx
          rcases List.mem_append.mp (mem_sortLen.mp hx) with hx' | hx'
          · exact hne x (List.mem_filter.mp hx').1
          · rcases List.mem_singleton.mp hx' with rfl
            exact slashNormalized_endWithSlash p

lemma subReach_listsInv {L : Nat} {sub : SubscriptionInfo}
    (h : SubReach L sub) : listsInv sub := by
  induction h with
  | init sub h1 h2 => simp [listsInv, h1, h2, sortedLen]
  | stepInclude sub p _ ih => exact listsInv_Include p ih
  | stepExclude sub p _ ih => exact listsInv_Exclude p ih

/-- Claim C8: after any sequence of `Include` / `Exclude` calls, the include
and exclude lists are disjoint and each is sorted by ascending length. -/
theorem C8_lists_disjoint_sorted (L : Nat) (sub : SubscriptionInfo)
    (h : SubReach L sub) :
    (∀ x ∈ sub.includes, x ∉ sub.excludes)
      ∧ sortedLen sub.includes ∧ sortedLen sub.excludes := by
  rcases subReach_listsInv h with ⟨hsi, hse, hdisj, -, -⟩
  exact ⟨hdisj, hsi, hse⟩

/-- A record exactly as `NewSubscription` builds it, used as the concrete
starting point of the witnesses and counterexamples below. -/
def freshRecord : SubscriptionInfo :=
  { SubId := ['i', 'd', '1']
    includes := []
    excludes := []
    active := false
    process := false
    expiration := 42
    IsClosedChan := false
    uid := 0 }

/-- The record after `Include ""` then `Include "a"` with per-list limit 3:
its include list is `["", "a/"]`. -/
def recordC2 : SubscriptionInfo :=
  (Include 3 (Include 3 freshRecord []).1 ['a']).1

/-- Claim C2, counterexample: the state `recordC2` is reached from a fresh
subscription by `Include ""` followed by `Include "a"`; its include list is
`["", "a/"]`, whose first element does not end with `'/'` and is a proper
prefix of the second element of the same list, refuting both conjuncts of
the claimed invariant. -/
theorem C2_counterexample :
    SubReach 3 recordC2
      ∧ recordC2.includes = [[], ['a', '/']]
      ∧ (([] : GoStr) ∈ recordC2.includes ∧ ([] : GoStr).getLast? ≠ some '/')
      ∧ (([] : GoStr) ∈ recordC2.includes ∧ (['a', '/'] : GoStr) ∈ recordC2.includes
          ∧ ([] : GoStr) <+: ['a', '/'] ∧ ([] : GoStr) ≠ ['a', '/']) := by
  refine ⟨?_, by decide, ⟨by decide, by decide⟩, by decide, by decide, ?_, by decide⟩
  · exact SubReach.stepInclude _ _ (SubReach.stepInclude _ _
      (SubReach.init freshRecord rfl rfl))
  · exact ⟨['a', '/'], rfl⟩

/-- Claim C2 as amended: after any sequence of `Include` and `Exclude` calls
on a subscription created by `NewSubscription`, every element of both lists
is slash-normalized, i.e. empty or ending with `'/'` (the empty prefix is
storable, and an element may be a proper prefix of a longer element added
after it, so the stronger claimed invariant fails). -/
theorem C2_amended_normalized (L : Nat) (sub : SubscriptionInfo)
    (h : SubReach L sub) :
    (∀ x ∈ sub.includes, slashNormalized x)
      ∧ ∀ x ∈ sub.excludes, slashNormalized x := by
  rcases subReach_listsInv h with ⟨-, -, -, hni, hne⟩
  exact ⟨hni, hne⟩

/-- A concrete state for the witnesses: fresh record, then `Include "a/b"`,
`Exclude "a"`, `Include "x"` under limit 3. -/
def recordW : SubscriptionInfo :=
  (Include 3 (Exclude 3 (Include 3 freshRecord ['a', '/', 'b']).1 ['a']).1 ['x']).1

lemma subReach_recordW : SubReach 3 recordW :=
  SubReach.stepInclude _ _ (SubReach.stepExclude _ _
    (SubReach.stepInclude _ _ (SubReach.init freshRecord rfl rfl)))

theorem C8_witness :
    (∀ x ∈ recordW.includes, x ∉ recordW.excludes)
      ∧ sortedLen recordW.includes ∧ sortedLen recordW.excludes :=
  C8_lists_disjoint_sorted 3 recordW subReach_recordW

theorem C2_amended_witness :
    (∀ x ∈ recordC2.includes, slashNormalized x)
      ∧ ∀ x ∈ recordC2.excludes, slashNormalized x :=
  C2_amended_normalized 3 recordC2
    (SubReach.stepInclude _ _ (SubReach.stepInclude _ _
      (SubReach.init freshRecord rfl rfl)))

/-! ### Exact behaviour of `Include` / `Exclude` (claims C3 and C10) -/

lemma filter_eq_self_of_length_le {q : GoStr → Bool} {l : List GoStr}
    (h : l.length ≤ (l.filter q).length) : l.filter q = l := by
  have hlen : (l.filter q).length = l.length :=
    Nat.le_antisymm (List.length_filter_le q l) h
  refine List.filter_eq_self.mpr ?_
  intro a ha
  by_contra hqa
  have : (l.filter q).length < l.length :=
    List.length_filter_lt_length_iff_exists.mpr ⟨a, ha, hqa⟩
  omega

/-- Claim C3: the exact case analysis of `Include` on a non-nil record, and
the mirrored one of `Exclude`.  Writing `P` for the slash-normalized prefix:
if `P` is exactly in the opposite list it is removed from that list alone;
otherwise if `P` is exactly in the target list nothing changes; otherwise
the target entries covered by `P` are removed and `P` is appended with the
list re-sorted by ascending length, unless the target length after the
removals is at or above the limit, in which case an error is returned and
the opposite list is untouched.  Entries of the opposite list that `P`
merely covers are never removed: in every case the opposite list either
loses exactly the entries equal to `P` or stays unchanged. -/
theorem C3_include_exclude_semantics (L : Nat) (sub : SubscriptionInfo)
    (p : GoStr) :
    (endWithSlash p ∈ sub.excludes →
      Include L sub p
        = ({ sub with excludes := stringSliceRemove sub.excludes (endWithSlash p) },
           Except.ok ()))
    ∧ (endWithSlash p ∉ sub.excludes → endWithSlash p ∈ sub.includes →
      Include L sub p = (sub, Except.ok ()))
    ∧ (endWithSlash p ∉ sub.excludes → endWithSlash p ∉ sub.includes →
      (sub.includes.filter (fun i => !((endWithSlash p).isPrefixOf i))).length < L →
      Include L sub p
        = ({ sub with includes := sortLen ((sub.includes.filter (fun i => !((endWithSlash p).isPrefixOf i))) ++ [endWithSlash p]) },
           Except.ok ()))
    ∧ (endWithSlash p ∉ sub.excludes → endWithSlash p ∉ sub.includes →
      L ≤ (sub.includes.filter (fun i => !((endWithSlash p).isPrefixOf i))).length →
      (Include L sub p).2 = Except.error "include limit reached"
        ∧ (Include L sub p).1.excludes = sub.excludes)
    ∧ (endWithSlash p ∈ sub.includes →
      Exclude L sub p
        = ({ sub with includes := stringSliceRemove sub.includes (endWithSlash p) },
           Except.ok ()))
    ∧ (endWithSlash p ∉ sub.includes → endWithSlash p ∈ sub.excludes →
      Exclude L sub p = (sub, Except.ok ()))
    ∧ (endWithSlash p ∉ sub.includes → endWithSlash p ∉ sub.excludes →
      (sub.excludes.filter (fun e => !((endWithSlash p).isPrefixOf e))).length < L →
      Exclude L sub p
        = ({ sub with excludes := sortLen ((sub.excludes.filter (fun e => !((endWithSlash p).isPrefixOf e))) ++ [endWithSlash p]) },
           Except.ok ()))
    ∧ (endWithSlash p ∉ sub.includes → endWithSlash p ∉ sub.excludes →
      L ≤ (sub.excludes.filter (fun e => !((endWithSlash p).isPrefixOf e))).length →
      (Exclude L sub p).2 = Except.error "exclude limit reached"
        ∧ (Exclude L sub p).1.includes = sub.includes) := by
  refine ⟨?_, ?_, ?_, ?_, ?_, ?_, ?_, ?_⟩
  · intro h1
    exact Include_mem_excludes h1
  · intro h1 h2
    exact Include_mem_includes h1 h2
  · intro h1 h2 hlt
    rw [Include_fresh h1 h2, if_neg (Nat.not_le_of_lt hlt)]
  · intro h1 h2 hge
    rw [Include_fresh h1 h2, if_pos hge]
    exact ⟨rfl, rfl⟩
  · intro h1
    exact Exclude_mem_includes h1
  · intro h1 h2
    exact Exclude_mem_excludes h1 h2
  · intro h1 h2 hlt
    rw [Exclude_fresh h1 h2, if_neg (Nat.not_le_of_lt hlt)]
  · intro h1 h2 hge
    rw [Exclude_fresh h1 h2, if_pos hge]
    exact ⟨rfl, rfl⟩

/-- A record holding include `"a/"` and exclude `"b/"`, within limit 3. -/
def recordC3 : SubscriptionInfo :=
  { freshRecord with includes := [['a', '/']], excludes := [['b', '/']] }

theorem C3_witness :
    Include 3 recordC3 ['b']
      = ({ recordC3 with excludes := stringSliceRemove recordC3.excludes ['b', '/'] },
         Except.ok ())
    ∧ Exclude 3 recordC3 ['c']
      = ({ recordC3 with excludes := sortLen ((recordC3.excludes.filter (fun e => !((['c', '/'] : GoStr).isPrefixOf e))) ++ [['c', '/']]) },
         Except.ok ()) := by
  constructor
  · exact (C3_include_exclude_semantics 3 recordC3 ['b']).1 (by decide)
  · exact (C3_include_exclude_semantics 3 recordC3 ['c']).2.2.2.2.2.2.1
      (by decide) (by decide) (by decide)

/-- Claim C10: when `Include` (resp. `Exclude`) fails with the limit error,
the record is returned exactly as it was, provided the target list respected
the limit beforehand (which the registry guarantees): reaching the error
branch forces the coalescence removals to have removed nothing. -/
theorem C10_error_leaves_record_unchanged (L : Nat) (sub : SubscriptionInfo)
    (p : GoStr) :
    (sub.includes.length ≤ L →
      ∀ msg, (Include L sub p).2 = Except.error msg → (Include L sub p).1 = sub)
    ∧ (sub.excludes.length ≤ L →
      ∀ msg, (Exclude L sub p).2 = Except.error msg → (Exclude L sub p).1 = sub) := by
  constructor
  · intro hlen msg herr
    by_cases h1 : endWithSlash p ∈ sub.excludes
    · rw [Include_mem_excludes h1] at herr
      exact absurd herr (by simp)
    · by_cases h2 : endWithSlash p ∈ sub.includes
      · rw [Include_mem_includes h1 h2] at herr
        exact absurd herr (by simp)
      · rw [Include_fresh h1 h2] at herr ⊢
        by_cases hlim : L ≤ (sub.includes.filter (fun i => !((endWithSlash p).isPrefixOf i))).length
        · rw [if_pos hlim]
          have hself : sub.includes.filter (fun i => !((endWithSlash p).isPrefixOf i)) = sub.includes :=
            filter_eq_self_of_length_le (Nat.le_trans hlen hlim)
          simp only [hself]
        · rw [if_neg hlim] at herr
          exact absurd herr (by simp)
  · intro hlen msg herr
    by_cases h1 : endWithSlash p ∈ sub.includes
    · rw [Exclude_mem_includes h1] at herr
      exact absurd herr (by simp)
    · by_cases h2 : endWithSlash p ∈ sub.excludes
      · rw [Exclude_mem_excludes h1 h2] at herr
        exact absurd herr (by simp)
      · rw [Exclude_fresh h1 h2] at herr ⊢
        by_cases hlim : L ≤ (sub.excludes.filter (fun e => !((endWithSlash p).isPrefixOf e))).length
        · rw [if_pos hlim]
          have hself : sub.excludes.filter (fun e => !((endWithSlash p).isPrefixOf e)) = sub.excludes :=
            filter_eq_self_of_length_le (Nat.le_trans hlen hlim)
          simp only [hself]
        · rw [if_neg hlim] at herr
          exact absurd herr (by simp)

/-- A record at the per-list limit 1 on both lists. -/
def recordC10 : SubscriptionInfo :=
  { freshRecord with includes := [['a', '/']], excludes := [['b', '/']] }

theorem C10_witness :
    (Include 1 recordC10 ['x']).1 = recordC10
      ∧ (Exclude 1 recordC10 ['y']).1 = recordC10 := by
  constructor
  · exact (C10_error_leaves_record_unchanged 1 recordC10 ['x']).1 (by decide)
      "include limit reached" rfl
  · exact (C10_error_leaves_record_unchanged 1 recordC10 ['y']).2 (by decide)
      "exclude limit reached" rfl

/-! ### Expiration transitions (claim C4) -/

/-- A reachable record refuting the claimed expiration invariant: a fresh
record (created at time 32 with idle TTL 10, so `expiration = 42`) on which
`SetProcess true` then `SetActive false` are called. -/
def recordC4 : SubscriptionInfo :=
  SetActive 10 2 (SetProcess 10 1 freshRecord true) false

/-- Claim C4, counterexample: after `SetProcess(true)` followed by
`SetActive(false)`, the record has `process = true` yet a set (non-zero)
expiration: `SetActive(false)` arms the expiration without checking the
processing flag, so "expiration set iff both flags false" fails on a
reachable state. -/
theorem C4_counterexample :
    recordC4.active = false ∧ recordC4.process = true
      ∧ recordC4.expiration = 12
      ∧ ¬(recordC4.expiration ≠ 0
            ↔ (recordC4.active = false ∧ recordC4.process = false)) := by
  refine ⟨by decide, by decide, by decide, ?_⟩
  intro h
  have := h.mp (by decide)
  exact absurd this.2 (by decide)

/-- Claim C4 as amended: `SetActive(true)` and `SetProcess(true)` clear the
expiration; `SetActive(false)` and `SetProcess(false)` arm
`expiration = now + idleTTL` unconditionally, regardless of the other flag.
(The claimed equivalence "expiration set iff both flags false" does not
hold, as `C4_counterexample` shows.) -/
theorem C4_amended_expiration_transitions (age now : Nat)
    (sub : SubscriptionInfo) :
    (SetActive age now sub true).expiration = 0
      ∧ (SetProcess age now sub true).expiration = 0
      ∧ (SetActive age now sub false).expiration = now + age
      ∧ (SetProcess age now sub false).expiration = now + age
      ∧ (SetActive age now sub false).process = sub.process
      ∧ (SetProcess age now sub false).active = sub.active :=
  ⟨rfl, rfl, rfl, rfl, rfl, rfl⟩

/-! ### `NewSubscription` (claim C6) -/

lemma mapLookup_mapInsert (m : List (GoStr × SubscriptionInfo)) (k : GoStr)
    (v : SubscriptionInfo) : mapLookup (mapInsert m k v) k = some v := by
  induction m with
  | nil => simp [mapInsert, mapLookup]
  | cons e rest ih =>
    rcases e with ⟨k', v'⟩
    by_cases h : k' = k
    · simp [mapInsert, mapLookup, h]
    · simp [mapInsert, mapLookup, h, ih]

/-- Claim C6: `NewSubscription` fails with "subscription limit reached" when
the count is at or above the limit, leaving the manager unchanged; it
propagates a token-generation failure, also leaving the manager unchanged;
and on success it returns the generated id while the new record — with
empty lists, both flags false, an open channel and
`expiration = now + idleTTL` — is reachable in the map under that id and
present in the list. -/
theorem C6_newSubscription (s : SubscriptionManager)
    (tok : Except String GoStr) (now : Nat) :
    (s.subscriptionLimit ≤ s.numSubscriptions →
      NewSubscription s tok now = (s, Except.error "subscription limit reached"))
    ∧ (s.numSubscriptions < s.subscriptionLimit →
      ∀ msg, tok = Except.error msg →
        NewSubscription s tok now = (s, Except.error msg))
    ∧ (s.numSubscriptions < s.subscriptionLimit →
      ∀ id, tok = Except.ok id →
        (NewSubscription s tok now).2 = Except.ok id
        ∧ ∃ r, mapLookup (NewSubscription s tok now).1.subscriptions id = some r
            ∧ r ∈ (NewSubscription s tok now).1.subscriptionList
            ∧ r.SubId = id ∧ r.includes = [] ∧ r.excludes = []
            ∧ r.active = false ∧ r.process = false ∧ r.IsClosedChan = false
            ∧ r.expiration = now + s.maxIdleSubscriptionAge) := by
  refine ⟨?_, ?_, ?_⟩
  · intro hlim
    simp [NewSubscription, hlim]
  · intro hlim msg htok
    subst htok
    simp [NewSubscription, Nat.not_le_of_lt hlim]
  · intro hlim id htok
    subst htok
    have hred : NewSubscription s (Except.ok id) now
        = ({ s with
              subscriptions := mapInsert s.subscriptions id
                { SubId := id, includes := [], excludes := [], active := false,
                  process := false, expiration := now + s.maxIdleSubscriptionAge,
                  IsClosedChan := false, uid := s.nextUid },
              subscriptionList := s.subscriptionList ++
                [{ SubId := id, includes := [], excludes := [], active := false,
                   process := false, expiration := now + s.maxIdleSubscriptionAge,
                   IsClosedChan := false, uid := s.nextUid }],
              numSubscriptions := s.numSubscriptions + 1,
              nextUid := s.nextUid + 1 }, Except.ok id) := by
      simp [NewSubscription, Nat.not_le_of_lt hlim]
    rw [hred]
    refine ⟨rfl, ?_⟩
    exact ⟨_, mapLookup_mapInsert _ _ _, by simp, rfl, rfl, rfl, rfl, rfl, rfl, rfl⟩

/-- The manager `Init 2 3 10` (limit 2, per-list limit 3, idle TTL 10). -/
def mgr0 : SubscriptionManager := Init 2 3 10

theorem C6_witness :
    (NewSubscription mgr0 (Except.ok ['i', 'd']) 5).2 = Except.ok ['i', 'd']
      ∧ ∃ r, mapLookup (NewSubscription mgr0 (Except.ok ['i', 'd']) 5).1.subscriptions ['i', 'd'] = some r
          ∧ r ∈ (NewSubscription mgr0 (Except.ok ['i', 'd']) 5).1.subscriptionList
          ∧ r.SubId = ['i', 'd'] ∧ r.includes = [] ∧ r.excludes = []
          ∧ r.active = false ∧ r.process = false ∧ r.IsClosedChan = false
          ∧ r.expiration = 5 + mgr0.maxIdleSubscriptionAge :=
  (C6_newSubscription mgr0 (Except.ok ['i', 'd']) 5).2.2 (by decide) ['i', 'd'] rfl

/-! ### Registry traces (claim C7) -/

/-- The registry operations of the claim: create (with the token outcome and
the creation time as inputs), delete, and close. -/
inductive RegOp where
  | newsub (tok : Except String GoStr) (now : Nat)
  | delsub (id : GoStr)
  | closeAll

def applyOp (s : SubscriptionManager) : RegOp → SubscriptionManager
  | RegOp.newsub tok now => (NewSubscription s tok now).1
  | RegOp.delsub id => DeleteSubscription s id
  | RegOp.closeAll => Close s

def applyOps (s : SubscriptionManager) (ops : List RegOp) : SubscriptionManager :=
  ops.foldl applyOp s

/-- A successfully generated token is fresh: it is not currently a key of the
map.  This models the global uniqueness of the random ids while live. -/
def freshStep (s : SubscriptionManager) : RegOp → Bool
  | RegOp.newsub (Except.ok id) _ => (mapLookup s.subscriptions id).isNone
  | _ => true

def freshTrace (s : SubscriptionManager) : List RegOp → Bool
  | [] => true
  | op :: rest => freshStep s op && freshTrace (applyOp s op) rest

lemma mapLookup_eq_none_iff {m : List (GoStr × SubscriptionInfo)} {k : GoStr} :
    mapLookup m k = none ↔ ∀ e ∈ m, e.1 ≠ k := by
  induction m with
  | nil => simp [mapLookup]
  | cons e rest ih =>
    rcases e with ⟨k', v'⟩
    by_cases h : k' = k
    · simp [mapLookup, h]
    · simp [mapLookup, h, ih]

lemma mapInsert_of_lookup_none {m : List (GoStr × SubscriptionInfo)}
    {k : GoStr} (v : SubscriptionInfo) (h : mapLookup m k = none) :
    mapInsert m k v = m ++ [(k, v)] := by
  induction m with
  | nil => rfl
  | cons e rest ih =>
    rcases e with ⟨k', v'⟩
    by_cases hk : k' = k
    · simp only [mapLookup, if_pos hk] at h
      exact absurd h (Option.some_ne_none v')
    · simp only [mapLookup, if_neg hk] at h
      simp only [mapInsert, if_neg hk, List.cons_append, List.cons.injEq, true_and]
      exact ih h

lemma mapLookup_some_mem {m : List (GoStr × SubscriptionInfo)} {k : GoStr}
    {v : SubscriptionInfo} (h : mapLookup m k = some v) : (k, v) ∈ m := by
  induction m with
  | nil => simp [mapLookup] at h
  | cons e rest ih =>
    rcases e with ⟨k', v'⟩
    by_cases hk : k' = k
    · simp only [mapLookup, if_pos hk, Option.some_inj] at h
      subst hk
      rw [h]
      exact List.mem_cons_self _ _
    · simp only [mapLookup, if_neg hk] at h
      exact List.mem_cons_of_mem _ (ih h)

lemma mapLookup_of_mem_nodup {m : List (GoStr × SubscriptionInfo)}
    {k : GoStr} {v : SubscriptionInfo} (hmem : (k, v) ∈ m)
    (hnodup : (m.map (fun e => e.1)).Nodup) : mapLookup m k = some v := by
  induction m with
  | nil => exact absurd hmem (List.not_mem_nil _)
  | cons e rest ih =>
    rcases e with ⟨k', v'⟩
    rcases List.nodup_cons.mp hnodup with ⟨hk', hrest⟩
    rcases List.mem_cons.mp hmem with heq | hmem'
    · injection heq with h1 h2
      subst h1
      subst h2
      simp [mapLookup]
    · by_cases hk : k' = k
      · exfalso
        apply hk'
        rw [hk]
        have : (k, v).1 ∈ rest.map (fun e => e.1) :=
          List.mem_map_of_mem (fun e => e.1) hmem'
        exact this
      · simp only [mapLookup, if_neg hk]
        exact ih hmem' hrest

lemma mapDelete_eq_self {m : List (GoStr × SubscriptionInfo)} {k : GoStr}
    (h : ∀ e ∈ m, e.1 ≠ k) : mapDelete m k = m :=
  List.filter_eq_self.mpr fun e he => by simpa using h e he

lemma mapDelete_values {m : List (GoStr × SubscriptionInfo)} {k : GoStr}
    {sub : SubscriptionInfo}
    (hkeys : (m.map (fun e => e.1)).Nodup)
    (huids : ((m.map (fun e => e.2)).map (fun r => r.uid)).Nodup)
    (hlk : mapLookup m k = some sub) :
    (mapDelete m k).map (fun e => e.2)
      = (m.map (fun e => e.2)).filter (fun r => r.uid ≠ sub.uid) := by
  induction m with
  | nil => simp [mapLookup] at hlk
  | cons e rest ih =>
    rcases e with ⟨k', v'⟩
    have hk'fresh : k' ∉ rest.map (fun e => e.1) := (List.nodup_cons.mp hkeys).1
    have hkeysrest : (rest.map (fun e => e.1)).Nodup := (List.nodup_cons.mp hkeys).2
    have huids' : (v'.uid :: (rest.map (fun e => e.2)).map (fun r => r.uid)).Nodup := by
      simpa using huids
    have huidfresh : v'.uid ∉ (rest.map (fun e => e.2)).map (fun r => r.uid) :=
      (List.nodup_cons.mp huids').1
    have huidsrest : ((rest.map (fun e => e.2)).map (fun r => r.uid)).Nodup :=
      (List.nodup_cons.mp huids').2
    by_cases hk : k' = k
    · simp only [mapLookup, if_pos hk, Option.some_inj] at hlk
      subst hlk
      have hrest : ∀ e ∈ rest, e.1 ≠ k := by
        intro e he heq
        apply hk'fresh
        rw [hk, ← heq]
        exact List.mem_map_of_mem (fun e => e.1) he
      have hd : mapDelete ((k', v') :: rest) k = rest := by
        have h0 : mapDelete ((k', v') :: rest) k = mapDelete rest k := by
          unfold mapDelete
          exact List.filter_cons_of_neg (by simp [hk])
        rw [h0]
        exact mapDelete_eq_self hrest
      have hkeep : (rest.map (fun e => e.2)).filter (fun r => r.uid ≠ v'.uid)
          = rest.map (fun e => e.2) := by
        apply List.filter_eq_self.mpr
        intro r hr
        have hne : r.uid ≠ v'.uid := by
          intro huid
          apply huidfresh
          rw [← huid]
          exact List.mem_map_of_mem (fun r => r.uid) hr
        simpa using hne
      rw [hd, List.map_cons, List.filter_cons_of_neg (by simp), hkeep]
    · simp only [mapLookup, if_neg hk] at hlk
      have hsubmem : sub.uid ∈ (rest.map (fun e => e.2)).map (fun r => r.uid) :=
        List.mem_map_of_mem _ (List.mem_map_of_mem (fun e => e.2)
          (mapLookup_some_mem hlk))
      have hne : v'.uid ≠ sub.uid := by
        intro h
        apply huidfresh
        rw [h]
        exact hsubmem
      have hstep : mapDelete ((k', v') :: rest) k = (k', v') :: mapDelete rest k := by
        unfold mapDelete
        exact List.filter_cons_of_pos (by simp [hk])
      rw [hstep, List.map_cons, List.map_cons,
        List.filter_cons_of_pos (by simpa using hne), ih hkeysrest huidsrest hlk]

/-- The registry representation invariant: the cached count, the map and the
list agree, keys are unique, records have distinct identities, and the uid
allocator dominates every live record. -/
def registryInv (s : SubscriptionManager) : Prop :=
  s.subscriptions.map (fun e => e.2) = s.subscriptionList
    ∧ (s.subscriptions.map (fun e => e.1)).Nodup
    ∧ (s.subscriptionList.map (fun r => r.uid)).Nodup
    ∧ s.numSubscriptions = s.subscriptionList.length
    ∧ ∀ r ∈ s.subscriptionList, r.uid < s.nextUid

lemma registryInv_Init (a b c : Nat) : registryInv (Init a b c) := by
  refine ⟨rfl, List.nodup_nil, List.nodup_nil, rfl, ?_⟩
  intro r hr
  exact absurd hr (List.not_mem_nil r)

lemma registryInv_applyOp {s : SubscriptionManager} {op : RegOp}
    (hInv : registryInv s) (hf : freshStep s op = true) :
    registryInv (applyOp s op) := by
  rcases hInv with ⟨hvals, hkeys, huids, hcount, hdom⟩
  cases op with
  | closeAll =>
    refine ⟨rfl, List.nodup_nil, List.nodup_nil, rfl, ?_⟩
    intro r hr
    exact absurd hr (List.not_mem_nil r)
  | newsub tok now =>
    by_cases hlim : s.subscriptionLimit ≤ s.numSubscriptions
    · simp only [applyOp, NewSubscription, if_pos hlim]
      exact ⟨hvals, hkeys, huids, hcount, hdom⟩
    · cases tok with
      | error e =>
        simp only [applyOp, NewSubscription, if_neg hlim]
        exact ⟨hvals, hkeys, huids, hcount, hdom⟩
      | ok id =>
        have hnone : mapLookup s.subscriptions id = none :=
          Option.isNone_iff_eq_none.mp (by simpa [freshStep] using hf)
        simp only [applyOp, NewSubscription, if_neg hlim]
        rw [mapInsert_of_lookup_none _ hnone]
        refine ⟨?_, ?_, ?_, ?_, ?_⟩
        · simp [hvals]
        · rw [List.map_append]
          refine hkeys.append (List.nodup_singleton _) ?_
          intro x hx hx'
          have hx2 : x = id := by simpa using hx'
          rcases List.mem_map.mp hx with ⟨e, he, heq⟩
          rw [hx2] at heq
          exact (mapLookup_eq_none_iff.mp hnone e he) heq
        · show ((s.subscriptionList ++ _).map (fun r => r.uid)).Nodup
          rw [List.map_append]
          refine huids.append (List.nodup_singleton _) ?_
          intro x hx hx'
          have hx2 : x = s.nextUid := by simpa using hx'
          rcases List.mem_map.mp hx with ⟨r, hr, heq⟩
          rw [hx2] at heq
          exact absurd (heq ▸ hdom r hr) (lt_irrefl _)
        · show s.numSubscriptions + 1 = (s.subscriptionList ++ _).length
          simp [hcount]
        · intro r hr
          rcases List.mem_append.mp hr with hr' | hr'
          · exact Nat.lt_trans (hdom r hr') (Nat.lt_succ_self _)
          · rcases List.mem_singleton.mp hr' with rfl
            exact Nat.lt_succ_self _
  | delsub id =>
    cases hlk : mapLookup s.subscriptions id with
    | none =>
      simp only [applyOp, DeleteSubscription, hlk]
      exact ⟨hvals, hkeys, huids, hcount, hdom⟩
    | some sub =>
      have hvals' := mapDelete_values hkeys (by rw [hvals]; exact huids) hlk
      simp only [applyOp, DeleteSubscription, hlk]
      refine ⟨?_, ?_, ?_, ?_, ?_⟩
      · rw [hvals', hvals]
      · exact ((List.filter_sublist s.subscriptions).map (fun e => e.1)).nodup hkeys
      · exact ((List.filter_sublist s.subscriptionList).map (fun r => r.uid)).nodup huids
      · show (mapDelete s.subscriptions id).length = _
        have hlm : (mapDelete s.subscriptions id).length
            = ((mapDelete s.subscriptions id).map (fun e => e.2)).length :=
          (List.length_map _ _).symm
        rw [hlm, hvals', hvals]
      · intro r hr
        exact hdom r (List.mem_filter.mp hr).1

lemma registryInv_applyOps {ops : List RegOp} :
    ∀ {s : SubscriptionManager}, registryInv s → freshTrace s ops = true →
      registryInv (applyOps s ops) := by
  induction ops with
  | nil => intro s h _; exact h
  | cons op rest ih =>
    intro s h hf
    rw [freshTrace, Bool.and_eq_true] at hf
    exact ih (registryInv_applyOp h hf.1) hf.2

/-- Claim C7: after any finite sequence of `NewSubscription`,
`DeleteSubscription` and `Close` operations on an initialized manager (with
each successful token fresh, as random ids are unique while live),
`NumSubscriptions` — the cached count — equals the number of keys of the
map, which equals the length of the list, and a record is reachable through
the map under some id exactly when it is stored in the list. -/
theorem C7_count_map_list_agree (a b c : Nat) (ops : List RegOp)
    (hfresh : freshTrace (Init a b c) ops = true) :
    (applyOps (Init a b c) ops).numSubscriptions
        = (applyOps (Init a b c) ops).subscriptions.length
    ∧ (applyOps (Init a b c) ops).subscriptions.length
        = (applyOps (Init a b c) ops).subscriptionList.length
    ∧ ∀ r, (∃ k, mapLookup (applyOps (Init a b c) ops).subscriptions k = some r)
        ↔ r ∈ (applyOps (Init a b c) ops).subscriptionList := by
  rcases registryInv_applyOps (registryInv_Init a b c) hfresh with
    ⟨hvals, hkeys, -, hcount, -⟩
  have hlen : (applyOps (Init a b c) ops).subscriptions.length
      = (applyOps (Init a b c) ops).subscriptionList.length := by
    rw [← hvals]
    exact (List.length_map _ _).symm
  refine ⟨hcount.trans hlen.symm, hlen, ?_⟩
  intro r
  constructor
  · rintro ⟨k, hk⟩
    rw [← hvals]
    exact List.mem_map_of_mem (fun e => e.2) (mapLookup_some_mem hk)
  · intro hr
    rw [← hvals] at hr
    rcases List.mem_map.mp hr with ⟨⟨k, v⟩, he, heq⟩
    refine ⟨k, ?_⟩
    rw [← heq]
    exact mapLookup_of_mem_nodup he hkeys

/-- A concrete trace: create two subscriptions, delete the first. -/
def opsC7 : List RegOp :=
  [RegOp.newsub (Except.ok ['a']) 5, RegOp.newsub (Except.ok ['b']) 6,
   RegOp.delsub ['a']]

theorem C7_witness :
    (applyOps (Init 2 3 10) opsC7).numSubscriptions
        = (applyOps (Init 2 3 10) opsC7).subscriptions.length
    ∧ (applyOps (Init 2 3 10) opsC7).subscriptions.length
        = (applyOps (Init 2 3 10) opsC7).subscriptionList.length := by
  rcases C7_count_map_list_agree 2 3 10 opsC7 (by decide) with ⟨h1, h2, -⟩
  exact ⟨h1, h2⟩

/-! ### Witness for claim C1 -/

instance (l : List GoStr) : Decidable (sortedLen l) := by
  unfold sortedLen
  infer_instance

/-- An active subscription including `a/` and excluding `a/b/`. -/
def subC1 : SubscriptionInfo :=
  { freshRecord with
      includes := [['a', '/']]
      excludes := [['a', '/', 'b', '/']]
      active := true
      uid := 7 }

/-- A manager holding exactly `subC1`. -/
def mgrC1 : SubscriptionManager :=
  { subscriptions := [(['i'], subC1)]
    subscriptionList := [subC1]
    numSubscriptions := 1
    subscriptionLimit := 2
    includeExcludeLimit := 3
    maxIdleSubscriptionAge := 10
    nextUid := 8 }

theorem C1_witness :
    (subC1.uid ∈ SubscribedChannels mgrC1 ['a', '/', 'c'] ↔
        specMatches ['a', '/', 'c'] subC1)
      ∧ ∀ r ∈ mgrC1.subscriptionList, r.active = false →
          r.uid ∉ SubscribedChannels mgrC1 ['a', '/', 'c'] :=
  C1_subscribedChannels_match mgrC1 ['a', '/', 'c'] subC1 (by decide)
    (by decide) (by decide) (by decide) (by decide)

/-! ### The management handlers of web/submgmt.go (claims C5 and C9) -/

/-- Go's `err != nil` on the result of `Include`/`Exclude`. -/
def isErr : Except String Unit → Bool
  | Except.ok _ => false
  | Except.error _ => true

/-- One iteration of the first clear loop of `putSubscription`: call
`Include` with an existing exclude entry, accumulating `someError`. -/
def clearStepInclude (L : Nat) (acc : SubscriptionInfo × Bool) (e : GoStr) :
    SubscriptionInfo × Bool :=
  ((Include L acc.1 e).1, acc.2 || isErr (Include L acc.1 e).2)

/-- One iteration of the second clear loop of `putSubscription`: call
`Exclude` with an existing include entry, accumulating `someError`. -/
def clearStepExclude (L : Nat) (acc : SubscriptionInfo × Bool) (i : GoStr) :
    SubscriptionInfo × Bool :=
  ((Exclude L acc.1 i).1, acc.2 || isErr (Exclude L acc.1 i).2)

/-- The clear phase of `putSubscription` from web/submgmt.go: `Include` every
existing exclude, then `Exclude` every existing include, tracking
`someError`. -/
def clearPhase (L : Nat) (sub : SubscriptionInfo)
    (existingIncludes existingExcludes : List GoStr) :
    SubscriptionInfo × Bool :=
  existingIncludes.foldl (clearStepExclude L)
    (existingExcludes.foldl (clearStepInclude L) (sub, false))

/-- The include loop of `patchSubscription`: stops at the first error. -/
def applyIncludes (L : Nat) (sub : SubscriptionInfo) :
    List GoStr → SubscriptionInfo × Except String Unit
  | [] => (sub, Except.ok ())
  | p :: rest =>
    match Include L sub p with
    | (sub', Except.ok _) => applyIncludes L sub' rest
    | (sub', Except.error e) => (sub', Except.error e)

/-- The exclude loop of `patchSubscription`: stops at the first error. -/
def applyExcludes (L : Nat) (sub : SubscriptionInfo) :
    List GoStr → SubscriptionInfo × Except String Unit
  | [] => (sub, Except.ok ())
  | p :: rest =>
    match Exclude L sub p with
    | (sub', Except.ok _) => applyExcludes L sub' rest
    | (sub', Except.error e) => (sub', Except.error e)

/-- `patchSubscription` from web/submgmt.go.  The body is `none` when the
request JSON fails to decode; otherwise it carries the `include` and
`exclude` arrays.  The returned number is the HTTP status. -/
def patchSubscription (L : Nat) (sub : SubscriptionInfo)
    (body : Option (List GoStr × List GoStr)) : SubscriptionInfo × Nat :=
  match body with
  | none => (sub, 400)
  | some (inc, exc) =>
    match applyIncludes L sub inc with
    | (sub', Except.error _) => (sub', 503)
    | (sub', Except.ok _) =>
      match applyExcludes L sub' exc with
      | (sub'', Except.error _) => (sub'', 503)
      | (sub'', Except.ok _) => (sub'', 200)

/-- `putSubscription` from web/submgmt.go: clear everything (continuing past
errors), fail with 500 if any clear step failed, otherwise process the body
exactly as a PATCH. -/
def putSubscription (L : Nat) (sub : SubscriptionInfo)
    (existingIncludes existingExcludes : List GoStr)
    (body : Option (List GoStr × List GoStr)) : SubscriptionInfo × Nat :=
  let c := clearPhase L sub existingIncludes existingExcludes
  if c.2 then (c.1, 500) else patchSubscription L c.1 body

lemma Include_clear {L : Nat} {sub : SubscriptionInfo} {e : GoStr}
    (he : e ∈ sub.excludes) (hn : slashNormalized e) :
    Include L sub e
      = ({ sub with excludes := stringSliceRemove sub.excludes e },
         Except.ok ()) := by
  have h1 : endWithSlash e = e := endWithSlash_of_normalized hn
  have := @Include_mem_excludes L sub e (by rw [h1]; exact he)
  rw [h1] at this
  exact this

lemma Exclude_clear {L : Nat} {sub : SubscriptionInfo} {i : GoStr}
    (hi : i ∈ sub.includes) (hn : slashNormalized i) :
    Exclude L sub i
      = ({ sub with includes := stringSliceRemove sub.includes i },
         Except.ok ()) := by
  have h1 : endWithSlash i = i := endWithSlash_of_normalized hn
  have := @Exclude_mem_includes L sub i (by rw [h1]; exact hi)
  rw [h1] at this
  exact this

lemma foldClearInclude (L : Nat) :
    ∀ (E : List GoStr) (sub : SubscriptionInfo) (b : Bool),
      sub.excludes = E → E.Nodup → (∀ e ∈ E, slashNormalized e) →
        E.foldl (clearStepInclude L) (sub, b) = ({ sub with excludes := [] }, b) := by
  intro E
  induction E with
  | nil =>
    intro sub b h _ _
    rw [List.foldl_nil, ← h]
  | cons e E' ih =>
    intro sub b h hnd hn
    have he : e ∈ sub.excludes := by
      rw [h]
      exact List.mem_cons_self e E'
    have hremove : stringSliceRemove sub.excludes e = E' := by
      unfold stringSliceRemove
      rw [h, List.filter_cons_of_neg (by simp)]
      apply List.filter_eq_self.mpr
      intro x hx
      have : x ≠ e := by
        intro heq
        exact (List.nodup_cons.mp hnd).1 (heq ▸ hx)
      simpa using this
    have hstep : clearStepInclude L (sub, b) e = ({ sub with excludes := E' }, b) := by
      unfold clearStepInclude
      rw [Include_clear he (hn e (List.mem_cons_self e E')), hremove]
      simp [isErr]
    rw [List.foldl_cons, hstep,
      ih { sub with excludes := E' } b rfl (List.nodup_cons.mp hnd).2
        (fun x hx => hn x (List.mem_cons_of_mem e hx))]

lemma foldClearExclude (L : Nat) :
    ∀ (I : List GoStr) (sub : SubscriptionInfo) (b : Bool),
      sub.includes = I → I.Nodup → (∀ i ∈ I, slashNormalized i) →
        I.foldl (clearStepExclude L) (sub, b) = ({ sub with includes := [] }, b) := by
  intro I
  induction I with
  | nil =>
    intro sub b h _ _
    rw [List.foldl_nil, ← h]
  | cons i I' ih =>
    intro sub b h hnd hn
    have hi : i ∈ sub.includes := by
      rw [h]
      exact List.mem_cons_self i I'
    have hremove : stringSliceRemove sub.includes i = I' := by
      unfold stringSliceRemove
      rw [h, List.filter_cons_of_neg (by simp)]
      apply List.filter_eq_self.mpr
      intro x hx
      have : x ≠ i := by
        intro heq
        exact (List.nodup_cons.mp hnd).1 (heq ▸ hx)
      simpa using this
    have hstep : clearStepExclude L (sub, b) i = ({ sub with includes := I' }, b) := by
      unfold clearStepExclude
      rw [Exclude_clear hi (hn i (List.mem_cons_self i I')), hremove]
      simp [isErr]
    rw [List.foldl_cons, hstep,
      ih { sub with includes := I' } b rfl (List.nodup_cons.mp hnd).2
        (fun x hx => hn x (List.mem_cons_of_mem i hx))]

lemma clearPhase_empties (L : Nat) (sub : SubscriptionInfo)
    (hIn : sub.includes.Nodup) (hEn : sub.excludes.Nodup)
    (hnI : ∀ x ∈ sub.includes, slashNormalized x)
    (hnE : ∀ x ∈ sub.excludes, slashNormalized x) :
    clearPhase L sub sub.includes sub.excludes
      = ({ sub with includes := [], excludes := [] }, false) := by
  unfold clearPhase
  rw [foldClearInclude L sub.excludes sub false rfl hEn hnE,
    foldClearExclude L sub.includes { sub with excludes := [] } false rfl hIn hnI]

/-- The S6 record: `include = [A/, B/]`, `exclude = [A/X/]`. -/
def recordS6 : SubscriptionInfo :=
  { freshRecord with
      includes := [['A', '/'], ['B', '/']]
      excludes := [['A', '/', 'X', '/']] }

/-- Claim C5: on a subscription whose lists are duplicate-free, disjoint and
slash-normalized (as the registry maintains them), the clear phase of a PUT
empties both lists and reports no error, so the whole PUT behaves as a PATCH
applied to the emptied record — no element of the prior lists survives of
its own accord.  In particular, `PUT {include:[C/], exclude:[]}` on the
record `include=[A/,B/]`, `exclude=[A/X/]` yields `include=[C/]`,
`exclude=[]` with status 200. -/
theorem C5_put_replaces (L : Nat) (sub : SubscriptionInfo)
    (body : Option (List GoStr × List GoStr))
    (hIn : sub.includes.Nodup) (hEn : sub.excludes.Nodup)
    (hdisj : ∀ x ∈ sub.includes, x ∉ sub.excludes)
    (hnI : ∀ x ∈ sub.includes, slashNormalized x)
    (hnE : ∀ x ∈ sub.excludes, slashNormalized x) :
    putSubscription L sub sub.includes sub.excludes body
        = patchSubscription L { sub with includes := [], excludes := [] } body
      ∧ putSubscription 100 recordS6 recordS6.includes recordS6.excludes
            (some ([['C', '/']], []))
          = ({ recordS6 with includes := [['C', '/']], excludes := [] }, 200) := by
  constructor
  · unfold putSubscription
    rw [clearPhase_empties L sub hIn hEn hnI hnE]
    simp
  · decide

theorem C5_witness :
    putSubscription 100 recordS6 recordS6.includes recordS6.excludes
        (some ([['C', '/']], []))
      = ({ recordS6 with includes := [['C', '/']], excludes := [] }, 200) :=
  (C5_put_replaces 100 recordS6 (some ([['C', '/']], [])) (by decide) (by decide)
    (by decide) (by decide) (by decide)).2

/-! ### `ProcessSubscriptionRequest` (claim C9) -/

/-- HTTP methods dispatched by `ProcessSubscriptionRequest` on an id path. -/
inductive Method where
  | get | put | patch | delete | other
deriving DecidableEq, Repr

/-- The handler-visible state: the record found in the process-global index
`g_subscriptions`, and whether the registry map still holds the id (the
registry drops the entry on deletion while the index keeps it). -/
structure WebState where
  record : SubscriptionInfo
  inRegistry : Bool
deriving DecidableEq, Repr

/-- `DeleteSubscription` as it acts through the shared record: a no-op when
the id is no longer in the registry map, otherwise the record is tombstoned
(flags cleared, id blanked, channel closed) and the entry removed. -/
def webDelete (st : WebState) : WebState :=
  if st.inRegistry then
    { record := { st.record with
        active := false, process := false, SubId := [], IsClosedChan := true },
      inRegistry := false }
  else st

/-- `ProcessSubscriptionRequest` from web/submgmt.go, for a request whose
subscription id was found in the index (`st.record` is that record): it sets
the processing flag, returns early if the record is tombstoned or its
channel closed, and otherwise dispatches on the method, clearing the flag
after `getSubscription`, `putSubscription` and `patchSubscription`, and
deleting the subscription for DELETE.  (The 405 default branch also clears
the flag.)  `L` is the per-list limit, `age` the idle TTL, `now` the clock. -/
def processSubscriptionRequest (L age now : Nat) (method : Method)
    (body : Option (List GoStr × List GoStr)) (st : WebState) : WebState :=
  let st1 : WebState := { st with record := SetProcess age now st.record true }
  if st1.record.SubId = [] then st1
  else if st1.record.IsClosedChan then st1
  else
    match method with
    | Method.get => { st1 with record := SetProcess age now st1.record false }
    | Method.delete => webDelete st1
    | Method.put =>
      let r := putSubscription L st1.record st1.record.includes st1.record.excludes body
      { st1 with record := SetProcess age now r.1 false }
    | Method.patch =>
      { st1 with record := SetProcess age now (patchSubscription L st1.record body).1 false }
    | Method.other => { st1 with record := SetProcess age now st1.record false }

/-- A tombstoned record still reachable through the index: `POST` put it in
the index, `DELETE` tombstoned it, and the index was never cleaned. -/
def stC9 : WebState :=
  { record := { freshRecord with SubId := [], IsClosedChan := true }
    inRegistry := false }

/-- Claim C9, counterexample: on a GET for an id still in the index whose
record was already tombstoned, the handler sets the processing flag and then
returns through the tombstone check without clearing it: the flag is false
before the request and true after the handler returns. -/
theorem C9_counterexample :
    stC9.record.process = false
      ∧ (processSubscriptionRequest 3 10 5 Method.get none stC9).record.process = true := by
  decide

/-- Claim C9 as amended: for a request whose id is found in the index and
whose record is not tombstoned and has an open channel (so the handler
reaches the method dispatch), the processing flag is set before dispatch,
and on every exit path of the handler the flag is false again — for DELETE
through the deletion itself.  The early exits taken when the indexed record
is already tombstoned or its channel closed return with the flag still set
(see `C9_counterexample`). -/
theorem C9_amended_process_scoped (L age now : Nat) (method : Method)
    (body : Option (List GoStr × List GoStr)) (st : WebState)
    (hid : st.record.SubId ≠ [])
    (hch : st.record.IsClosedChan = false)
    (hreg : st.inRegistry = true) :
    (SetProcess age now st.record true).process = true
      ∧ (processSubscriptionRequest L age now method body st).record.process = false := by
  refine ⟨rfl, ?_⟩
  cases method <;>
    simp [processSubscriptionRequest, webDelete, SetProcess, hid, hch, hreg]

theorem C9_witness :
    (SetProcess 10 5 freshRecord true).process = true
      ∧ (processSubscriptionRequest 3 10 5 Method.delete none
          { record := freshRecord, inRegistry := true }).record.process = false :=
  C9_amended_process_scoped 3 10 5 Method.delete none
    { record := freshRecord, inRegistry := true } (by decide) (by decide) (by decide)

end EdgexSSE
